import Mathlib

/-!
# Verification of the pytango chat-client core

A shallow embedding of the pytango repository (a Chatango chat protocol
client) in Lean 4, together with proofs settling the frozen claims about
its specification.

Embedding conventions:
* Python strings are Lean `String`s; all character classification
  (`isdigit`, `isalnum`, `lower`, word characters) is modelled on the
  ASCII range, which covers every input the protocol and the claims use.
* Python `int(...)` / `float(...)` conversions are modelled by
  `pyInt?` / `pyFloat?` returning `Option` (`none` models a raised
  `ValueError`); floats are modelled as exact rationals.
* Python dicts are association lists preserving insertion order; Python
  sets of `User` objects are lists of heap identifiers, with set
  membership decided by the case-insensitive name equality that
  `User.__eq__` / `User.__hash__` implement.
* Mutable `User` objects shared between the member set and the moderator
  set are modelled by a heap (`List (Nat × UserData)`) of allocation
  identifier to data, so object identity and aliasing are preserved.
* A handler that raises an uncaught exception is modelled by returning
  `none` when no state was mutated before the raise; the few spots where
  Python mutates state before raising are modelled explicitly and noted.
-/

namespace Pytango

/-! ## ASCII string helpers (models of the Python built-ins used) -/

/-- ASCII lower-casing of one character, the fragment of Python
`str.lower` exercised by the protocol. -/
def pyLowerChar (c : Char) : Char :=
  if 65 ≤ c.toNat ∧ c.toNat ≤ 90 then Char.ofNat (c.toNat + 32) else c

/-- Model of Python `str.lower` (ASCII fragment). -/
def pyLower (s : String) : String :=
  ⟨s.data.map pyLowerChar⟩

/-- Decimal digit test, Python `str.isdigit` on one ASCII character. -/
def isDigitChar (c : Char) : Bool :=
  48 ≤ c.toNat ∧ c.toNat ≤ 57

/-- ASCII alphanumeric test for one character. -/
def isAlnumChar (c : Char) : Bool :=
  isDigitChar c ∨ (65 ≤ c.toNat ∧ c.toNat ≤ 90) ∨ (97 ≤ c.toNat ∧ c.toNat ≤ 122)

/-- Model of Python `str.isalnum` (ASCII fragment): non-empty and all
alphanumeric. -/
def pyIsAlnum (s : String) : Bool :=
  !s.data.isEmpty && s.data.all isAlnumChar

/-- Model of Python `str.isdigit`: non-empty and all decimal digits. -/
def pyIsDigit (s : String) : Bool :=
  !s.data.isEmpty && s.data.all isDigitChar

/-- Word-character test for the `\w` class of the regexes (ASCII). -/
def isWordChar (c : Char) : Bool :=
  isAlnumChar c || c = '_'

/-- Value of one decimal digit character. -/
def digitVal (c : Char) : Nat := c.toNat - 48

/-- The character for one decimal digit, Python `str(d)` for `0 ≤ d ≤ 9`. -/
def digitToChar (n : Nat) : Char := Char.ofNat (n + 48)

/-- Numeric value of a non-empty all-digit character list. -/
def digitsVal (cs : List Char) : Nat :=
  cs.foldl (fun a c => a * 10 + digitVal c) 0

/-- Model of Python `int(s)`: optional sign followed by a non-empty run
of decimal digits; `none` models a raised `ValueError`. (Python also
strips surrounding whitespace and accepts underscore separators and
non-ASCII digits; no input in the repository or the claims uses those.) -/
def pyInt? (s : String) : Option Int :=
  match s.data with
  | '-' :: rest => if rest ≠ [] ∧ rest.all isDigitChar then some (-(digitsVal rest : Int)) else none
  | '+' :: rest => if rest ≠ [] ∧ rest.all isDigitChar then some (digitsVal rest : Int) else none
  | cs => if cs ≠ [] ∧ cs.all isDigitChar then some (digitsVal cs : Int) else none

/-- Value of one base-36 digit (both letter cases), as in Python
`int(c, 36)`. -/
def digit36Val? (c : Char) : Option Nat :=
  if isDigitChar c then some (c.toNat - 48)
  else if 97 ≤ c.toNat ∧ c.toNat ≤ 122 then some (c.toNat - 87)
  else if 65 ≤ c.toNat ∧ c.toNat ≤ 90 then some (c.toNat - 55)
  else none

/-- Model of Python `int(s, 36)` on unsigned inputs. -/
def pyInt36? (s : String) : Option Nat :=
  if s.data = [] then none
  else s.data.foldlM (fun a c => (digit36Val? c).map (fun v => a * 36 + v)) 0

/-- An exact decimal fixed-point number, the model of the Python floats
the protocol carries (timestamps): the value is `mant / 10 ^ scale`.
Exact decimal arithmetic stands in for IEEE doubles; the protocol only
parses and compares these values. -/
structure PyFloat where
  mant : Int
  scale : Nat
deriving DecidableEq

/-- Value order on decimal fixed-point numbers, by cross multiplication. -/
def PyFloat.lt (a b : PyFloat) : Bool :=
  a.mant * (10 : Int) ^ b.scale < b.mant * (10 : Int) ^ a.scale

/-- Unsigned part of `pyFloat?`. -/
def pyFloatCore? (cs : List Char) : Option PyFloat :=
  let ip := cs.takeWhile isDigitChar
  let rest := cs.dropWhile isDigitChar
  match rest with
  | [] => if ip = [] then none else some ⟨(digitsVal ip : Int), 0⟩
  | '.' :: fs =>
    if fs.all isDigitChar ∧ (ip ≠ [] ∨ fs ≠ []) then
      some ⟨(digitsVal (ip ++ fs) : Int), fs.length⟩
    else none
  | _ => none

/-- Model of Python `float(s)` on the decimal literals the protocol
carries; `none` models a raised `ValueError`. -/
def pyFloat? (s : String) : Option PyFloat :=
  match s.data with
  | '-' :: rest => (pyFloatCore? rest).map (fun v => ⟨-v.mant, v.scale⟩)
  | '+' :: rest => pyFloatCore? rest
  | cs => pyFloatCore? cs

/-- Python slice `s[a:b]` with the usual clamping. -/
def strSlice (s : String) (a b : Nat) : String :=
  ⟨(s.data.drop a).take (b - a)⟩

/-- Python slice `s[-n:]`. -/
def strTakeRight (s : String) (n : Nat) : String :=
  ⟨s.data.drop (s.data.length - n)⟩

/-- Python `s.rsplit(sep, 1)[0]` for a one-character separator: the part
before the last occurrence, or the whole string when absent. -/
def rsplitHead (sep : Char) (s : String) : String :=
  if sep ∈ s.data then
    ⟨(((s.data.reverse.dropWhile (fun c => c ≠ sep)).drop 1).reverse)⟩
  else s

/-- Insertion-order-preserving dict update `d[k] = v`. -/
def pyDictSet [DecidableEq κ] (d : List (κ × α)) (k : κ) (v : α) : List (κ × α) :=
  if d.any (fun p => p.1 = k) then
    d.map (fun p => if p.1 = k then (k, v) else p)
  else d ++ [(k, v)]

/-- Python `s.split(sep)` for a one-character separator, over character
lists (the core `String.splitOn` does not reduce inside the kernel). -/
def splitOnChar (sep : Char) : List Char → List (List Char)
  | [] => [[]]
  | c :: rest =>
    match splitOnChar sep rest with
    | [] => if c = sep then [[], []] else [[c]]
    | h :: t => if c = sep then [] :: h :: t else (c :: h) :: t

/-- Python `s.split(sep)` on strings. -/
def pySplitChar (s : String) (sep : Char) : List String :=
  (splitOnChar sep s.data).map (fun cs => ⟨cs⟩)

/-- Dict deletion `del d[k]`. -/
def pyDictDel [DecidableEq κ] (d : List (κ × α)) (k : κ) : List (κ × α) :=
  d.filter (fun p => p.1 ≠ k)

/-- Equality of `Except String Int` results is decidable (needed to
evaluate `server_num` results in the theorems below). -/
instance : DecidableEq (Except String Int) := fun a b =>
  match a, b with
  | .ok x, .ok y =>
    if h : x = y then isTrue (by rw [h]) else isFalse (by intro hc; cases hc; exact h rfl)
  | .error x, .error y =>
    if h : x = y then isTrue (by rw [h]) else isFalse (by intro hc; cases hc; exact h rfl)
  | .ok _, .error _ => isFalse (by intro hc; cases hc)
  | .error _, .ok _ => isFalse (by intro hc; cases hc)

/-! ## generate.py -/

/-- Effectful map over a list in the `Option` monad, the model of the
Python `map` in `aid` / `reverse_aid` (the first raised `ValueError`
propagates). -/
def mapMOpt (f : α → Option β) : List α → Option (List β)
  | [] => some []
  | x :: xs => do
    let y ← f x
    let ys ← mapMOpt f xs
    pure (y :: ys)

/-- The weighted cumulative-distribution table `_WEIGHTS`
(generate.py lines 6-21). -/
def WEIGHTS : List (Int × Int) := [
    (5, 75), (6, 75), (7, 75), (8, 75), (16, 75), (17, 75)
  , (18, 75), (9, 95), (11, 95), (12, 95), (13, 95), (14, 95)
  , (15, 95), (19, 110), (23, 110), (24, 110), (25, 110)
  , (26, 110), (28, 104), (29, 104), (30, 104), (31, 104)
  , (32, 104), (33, 104), (35, 101), (36, 101), (37, 101)
  , (38, 101), (39, 101), (40, 101), (41, 101), (42, 101)
  , (43, 101), (44, 101), (45, 101), (46, 101), (47, 101)
  , (48, 101), (49, 101), (50, 101), (52, 110), (53, 110)
  , (55, 110), (57, 110), (58, 110), (59, 110), (60, 110)
  , (61, 110), (62, 110), (63, 110), (64, 110), (65, 110)
  , (66, 110), (68, 95), (71, 116), (72, 116), (73, 116)
  , (74, 116), (75, 116), (76, 116), (77, 116), (78, 116)
  , (79, 116), (80, 116), (81, 116), (82, 116), (83, 116)
  , (84, 116)
]

/-- `_TOTAL_WEIGHT = sum([n[1] for n in _WEIGHTS])` (generate.py line 22). -/
def TOTAL_WEIGHT : Int := (WEIGHTS.map (fun n => n.2)).foldl (· + ·) 0

/-- The override table `_SPECIALS` (generate.py lines 23-31). -/
def SPECIALS : List (String × Int) := [
    ("de-livechat", 5), ("ver-anime", 8), ("watch-dragonball", 8), ("narutowire", 10)
  , ("dbzepisodeorg", 10), ("animelinkz", 20), ("kiiiikiii", 21), ("soccerjumbo", 21)
  , ("vipstand", 21), ("cricket365live", 21), ("pokemonepisodeorg", 22)
  , ("watchanimeonn", 22), ("leeplarp", 27), ("animeultimacom", 34)
  , ("rgsmotrisport", 51), ("cricvid-hitcric-", 51), ("tvtvanimefreak", 54)
  , ("stream2watch3", 56), ("mitvcanal", 56), ("sport24lt", 56), ("ttvsports", 56)
  , ("eafangames", 56), ("myfoxdfw", 67), ("peliculas-flv", 69), ("narutochatt", 70)
]

/-- `aid(ncolor, group_id)` (generate.py lines 37-46): 4-digit anonymous
id from a seed and a group/session id, by per-digit modular addition of
the seed digits with `group_id[4:8]`. The `try` block falls back to seed
`"3452"` when the trimmed seed is not `int`-able; the digit-wise `int`
calls in the final `map` are outside the `try`, so a non-digit character
of `group_id[4:8]` raises `ValueError`, modelled by `none`. Python `map`
over two sequences stops at the shorter one.  `aidDigit` is the
digit-wise body of the `map` (generate.py lines 45-46):
`str((int(i) + int(v)) % 10)`. -/
def aidDigit (p : Char × Char) : Option Char := do
  let i ← pyInt? ⟨[p.1]⟩
  let v ← pyInt? ⟨[p.2]⟩
  pure (digitToChar (((i + v) % 10).toNat))

/-- The digit-wise body of the `map` in `reverse_aid`
(generate.py lines 54-55): `str((int(g) - int(v)) % 10)`. -/
def reverseAidDigit (p : Char × Char) : Option Char := do
  let g ← pyInt? ⟨[p.1]⟩
  let v ← pyInt? ⟨[p.2]⟩
  pure (digitToChar (((g - v) % 10).toNat))

/-- `aid(ncolor, group_id)` (generate.py lines 37-46): 4-digit anonymous
id from a seed and a group/session id, by per-digit modular addition of
the seed digits with `group_id[4:8]`. The `try` block falls back to seed
`"3452"` when the trimmed seed is not `int`-able; the digit-wise `int`
calls in the final `map` are outside the `try`, so a non-digit character
of `group_id[4:8]` raises `ValueError`, modelled by `none`. Python `map`
over two sequences stops at the shorter one. -/
def aid (ncolor : String) (group_id : String) : Option String := do
  let n0 := rsplitHead '.' ncolor
  let n1 := strTakeRight n0 4
  let n2 := if (pyInt? n1).isSome then n1 else "3452"
  let pairs := n2.data.zip (strSlice group_id 4 8).data
  let out ← mapMOpt aidDigit pairs
  pure ⟨out⟩

/-- `reverse_aid(goal, group_id)` (generate.py lines 52-55): per-digit
modular subtraction, the inverse direction of `aid`. -/
def reverse_aid (goal : String) (group_id : String) : Option String := do
  let pairs := goal.data.zip (strSlice group_id 4 8).data
  let out ← mapMOpt reverseAidDigit pairs
  pure ⟨out⟩

/-- One step of the cumulative-weight scan in `server_num`
(generate.py lines 69-73). `total` accumulates `weight*temp/_TOTAL_WEIGHT`
as exact rationals (the Python code uses floats; no claim depends on the
rounding of the scan). -/
def serverScan (temp : Int) (max_weight : Int) : List (Int × Int) → ℚ → Int
  | [], _ => -1
  | (ret, weight) :: rest, total =>
    let total := total + (weight * temp : ℚ) / (TOTAL_WEIGHT : ℚ)
    if (max_weight : ℚ) ≤ total then ret else serverScan temp max_weight rest total

/-- `server_num(group)` (generate.py lines 57-74). The override table is
consulted first; then hyphens and underscores are folded to `q`; a name
that is then not alphanumeric raises `ValueError`, modelled as `.error`.
The base-36 parses cannot fail after the `isalnum` guard; the dead
failure path is kept as a distinct error value.  `normalizeGroup` is the
hyphen/underscore folding of line 62. -/
def normalizeGroup (group : String) : String :=
  ⟨group.data.map (fun c => if c = '-' ∨ c = '_' then 'q' else c)⟩

/-- `server_num(group)` continues here with the folded name. -/
def server_num (group : String) : Except String Int :=
  match SPECIALS.lookup group with
  | some n => .ok n
  | none =>
    let g : String := normalizeGroup group
    if ¬ pyIsAlnum g then .error "invalid character in group name"
    else
      match pyInt36? (strSlice g 6 9), pyInt36? (strSlice g 0 5) with
      | t69, some head =>
        let temp : Int := if 7 ≤ g.data.length then max (t69.getD 0 : Int) 1000 else 1000
        let max_weight : Int := (head : Int).emod temp
        .ok (serverScan temp max_weight WEIGHTS 0)
      | _, none => .error "unreachable after isalnum guard"

/-! ## base.py -/

/-- The fixed font-face table `FONT_FACES` (base.py lines 5-15). -/
def FONT_FACES : List String := [
    "Arial"
  , "Comic Sans"
  , "Georgia"
  , "Handwriting"
  , "Impact"
  , "Palatino"
  , "Papyrus"
  , "Times New Roman"
  , "Typewriter"
]

/-- `FONT_SIZES` (base.py line 17). -/
def FONT_SIZES : List Int := [9, 10, 11, 12, 13, 14]

/-- `CHANNEL_NAMES` (base.py line 18). -/
def CHANNEL_NAMES : List String := ["None", "Red", "Blue", "Both"]

/-- Python list indexing `l[i]`, including negative-index wrap-around;
`none` models a raised `IndexError`. -/
def pyIndex? (l : List α) (i : Int) : Option α :=
  if 0 ≤ i then l.get? i.toNat
  else if (-i).toNat ≤ l.length then l.get? (l.length - (-i).toNat)
  else none

/-- The value stored in `Connection._f_face`: Python keeps either a font
name string or an integer index there. -/
abbrev FFaceVal := String ⊕ Int

/-- The `f_face` setter (base.py lines 166-173): a non-digit string is
stored verbatim; a digit string is converted to `int`; an integer is
clamped to `min(len(FONT_FACES), max(0, arg))`. -/
def f_face_set (arg : FFaceVal) : FFaceVal :=
  match arg with
  | .inl s =>
    if ¬ pyIsDigit s then .inl s
    else .inr (min (FONT_FACES.length : Int) (max 0 (digitsVal s.data : Int)))
  | .inr i => .inr (min (FONT_FACES.length : Int) (max 0 i))

/-- The `f_face` getter (base.py lines 137-142): an integer value is
looked up in `FONT_FACES` (raising `IndexError`, modelled `none`, when
out of range); a string value is returned as-is. -/
def f_face_get (v : FFaceVal) : Option String :=
  match v with
  | .inl s => some s
  | .inr i => pyIndex? FONT_FACES i

/-! ## group.py flag tables and GroupFlags.update -/

/-- `GroupFlags._IMPLIES` (group.py lines 850-854), as a lookup with
default 0. -/
def groupImplies (flag : Nat) : Nat :=
  if flag = 32768 then 16384
  else if flag = 65536 then 131072
  else if flag = 2097152 then 16384
  else 0

/-- The per-candidate flag widening of `GroupFlags.update`
(group.py lines 867-868): `if cls._IMPLIES.get(flag): flag |= ...`. -/
def withImplied (flag : Nat) : Nat :=
  if groupImplies flag ≠ 0 then flag ||| groupImplies flag else flag

/-- Python `x & ~y` on non-negative ints. -/
def pyAndNot (x y : Nat) : Nat := x ^^^ (x &&& y)

/-- The accumulator loop of `GroupFlags.update` (group.py lines 864-882)
over the candidate list: state is `(set_flags, clear_flags, radio_set)`. -/
def updateScan (radio : Bool) : List (Bool × Nat) → Nat × Nat × Option Nat → Nat × Nat × Option Nat
  | [], st => st
  | (test, flag0) :: rest, (set_flags, clear_flags, radio_set) =>
    let flag := withImplied flag0
    if radio then
      if test ∧ radio_set = none then
        updateScan radio rest (set_flags, clear_flags, some flag)
      else
        updateScan radio rest (set_flags, clear_flags ||| flag, radio_set)
    else
      if ¬ test then
        updateScan radio rest (pyAndNot set_flags flag, clear_flags ||| flag, radio_set)
      else
        updateScan radio rest (set_flags ||| flag, pyAndNot clear_flags flag, radio_set)

/-- `GroupFlags.update` (group.py lines 856-886): computes the pair
`(set_flags, clear_flags)` that the method passes to
`send_command("updategroupflags", ...)`. -/
def GroupFlags.update (args : List (Bool × Nat)) (radio : Bool) : Nat × Nat :=
  let (set_flags, clear_flags, radio_set) := updateScan radio args (0, 0, none)
  let set_flags := if radio then (match radio_set with | some r => r | none => set_flags) else set_flags
  (set_flags, clear_flags)

/-! ## post.py: formatting decoder -/

/-- Hexadecimal-digit test for the `[0-9a-fA-F]` classes of
`POST_TAG_RE`. -/
def isHexChar (c : Char) : Bool :=
  isDigitChar c ∨ (97 ≤ c.toNat ∧ c.toNat ≤ 102) ∨ (65 ≤ c.toNat ∧ c.toNat ≤ 70)

/-- Longest-first backtracking over a bounded greedy character-class run,
shared by the two tag parsers: tries to split off `k, k-1, ..., lo`
characters of `run` such that `check` accepts the remainder. -/
def tryRun (cs : List Char) (run : List Char) (check : List Char → Option α) :
    Nat → Option (List Char × α)
  | 0 => none
  | k + 1 =>
    match check (cs.drop (k + 1)) with
    | some a => some (run.take (k + 1), a)
    | none => tryRun cs run check k

/-- The optional name-color tag `(<n([a-fA-F0-9]{1,6})\/>)?` of
`POST_TAG_RE` (post.py line 11), matched at the start of the input:
returns the captured group 2 and the rest. -/
def parseNTag (cs : List Char) : Option (String × List Char) :=
  match cs with
  | '<' :: 'n' :: body =>
    let run := (body.takeWhile isHexChar).take 6
    match tryRun body run
        (fun rest => match rest with
          | '/' :: '>' :: after => some after
          | _ => none) run.length with
    | some (hex, after) => some (⟨hex⟩, after)
    | none => none
  | _ => none

/-- The optional font tag `(<f x([0-9a-fA-F]{2,8})="([0-9a-zA-Z]*)">)?`
of `POST_TAG_RE` (post.py line 12), matched at the start of the input:
returns the captured groups 4 and 5 and the rest. The `{2,8}` run
backtracks longest-first; at least two characters are required. -/
def parseFTag (cs : List Char) : Option (String × String × List Char) :=
  match cs with
  | '<' :: 'f' :: ' ' :: 'x' :: body =>
    let run := (body.takeWhile isHexChar).take 8
    if run.length < 2 then none
    else
      match tryRun body run
          (fun rest => match rest with
            | '=' :: '"' :: v =>
              let face := v.takeWhile isAlnumChar
              match v.drop face.length with
              | '"' :: '>' :: after => some (face, after)
              | _ => none
            | _ => none) run.length with
      | some (hex, face, after) =>
        if hex.length < 2 then none else some (⟨hex⟩, ⟨face⟩, after)
      | none => none
  | _ => none

/-- `parse_formatting(raw)` (post.py lines 17-37). `POST_TAG_RE.search`
always matches at index 0 because both tags are optional, so the two tag
parsers run at the start of the string. A combined size+color capture is
recognised by `len % 3 == 2`; `int` of its first two characters is
outside any `try`, so hex letters there raise `ValueError` (`none`).
The face capture resolves through `FONT_FACES` with `TypeError` /
`IndexError` falling back to face 0 and `ValueError` keeping the literal
string. -/
def parse_formatting (raw : String) : Option (String × String × Int × String) :=
  let cs := raw.data
  let (nColorCap, rest1) :=
    match parseNTag cs with
    | some (h, after) => (some h, after)
    | none => (none, cs)
  let (sizeColorCap, faceCap) :=
    match parseFTag rest1 with
    | some (sc, f, _) => (some sc, some f)
    | none => (none, none)
  let n_color := nColorCap.getD ""
  do
  let (f_size, f_color) ←
    match sizeColorCap with
    | some sc =>
      if sc.length % 3 = 2 then do
        let v ← pyInt? (strSlice sc 0 2)
        pure (v, strSlice sc 2 sc.length)
      else pure ((11 : Int), sc)
    | none => pure ((11 : Int), "")
  let f_face :=
    match faceCap with
    | none => FONT_FACES.getD 0 ""
    | some f =>
      match pyInt? f with
      | none => f
      | some i => (pyIndex? FONT_FACES i).getD (FONT_FACES.getD 0 "")
  pure (n_color, f_color, f_size, f_face)

/-! ## post.py: body formatter -/

/-- The scan for `(.*?)/?>` after the opening `<` (and optional `/`) of
`XML_TAG_RE` (post.py line 13): lazily grows the group-2 content until
the earliest `/>` or `>`, returning the content and the rest. -/
def tagScan : List Char → List Char → Option (List Char × List Char)
  | [], _ => none
  | '/' :: '>' :: rest, acc => some (acc.reverse, rest)
  | '>' :: rest, acc => some (acc.reverse, rest)
  | c :: rest, acc => tagScan rest (c :: acc)

/-- One attempted match of `XML_TAG_RE` immediately after a `<`:
consumes the greedy optional `/`, then scans for the content. -/
def tagMatch (cs : List Char) : Option (List Char × List Char) :=
  match cs with
  | '/' :: rest => tagScan rest []
  | rest => tagScan rest []

/-- The tag-removal loop of `format_raw` (post.py lines 48-55): each
match of `XML_TAG_RE` is replaced by a newline when its group 2 is
exactly `br`, and by nothing otherwise. Fuel is the remaining input
length; every step consumes at least one character. -/
def stripTagsGo : Nat → List Char → List Char
  | 0, cs => cs
  | _ + 1, [] => []
  | fuel + 1, '<' :: rest =>
    match tagMatch rest with
    | some (content, after) =>
      (if content = ['b', 'r'] then ['\n'] else []) ++ stripTagsGo fuel after
    | none => '<' :: stripTagsGo fuel rest
  | fuel + 1, c :: rest => c :: stripTagsGo fuel rest

/-- Named character references recognised by the `html.unescape` model. -/
def entityTable : List (List Char × Char) := [
    (['a', 'm', 'p', ';'], '&')
  , (['l', 't', ';'], '<')
  , (['g', 't', ';'], '>')
  , (['q', 'u', 'o', 't', ';'], '"')
  , (['#', '3', '9', ';'], Char.ofNat 39)
  , (['a', 'p', 'o', 's', ';'], Char.ofNat 39)
  , (['n', 'b', 's', 'p', ';'], Char.ofNat 160)
]

/-- One attempted character-reference match after a `&`. Numeric decimal
references are decoded when in range; otherwise the named table is
consulted. -/
def matchEntity (cs : List Char) : Option (Char × List Char) :=
  match cs with
  | '#' :: rest =>
    let ds := rest.takeWhile isDigitChar
    (match ds, rest.drop ds.length with
     | _ :: _, ';' :: after =>
       if digitsVal ds < 55296 then some (Char.ofNat (digitsVal ds), after)
       else none
     | _, _ => entityTable.foldl (fun acc p =>
         match acc with
         | some r => some r
         | none => if cs.take p.1.length = p.1 then some (p.2, cs.drop p.1.length) else none) none)
  | _ => entityTable.foldl (fun acc p =>
      match acc with
      | some r => some r
      | none => if cs.take p.1.length = p.1 then some (p.2, cs.drop p.1.length) else none) none

/-- Model of Python `html.unescape` restricted to the common named and
decimal references; every body the claims touch is reference-free, and
unrecognised sequences are kept verbatim exactly as Python keeps
unrecognised ones. -/
def unescapeGo : Nat → List Char → List Char
  | 0, cs => cs
  | _ + 1, [] => []
  | fuel + 1, '&' :: rest =>
    match matchEntity rest with
    | some (c, after) => c :: unescapeGo fuel after
    | none => '&' :: unescapeGo fuel rest
  | fuel + 1, c :: rest => c :: unescapeGo fuel rest

/-- The trailing-newline strip of `format_raw` (post.py lines 57-59). -/
def stripTrailingNewlines (cs : List Char) : List Char :=
  (cs.reverse.dropWhile (fun c => c = '\n')).reverse

/-- The group-2 suffix `t(_\d+.\w+)` of `THUMBNAIL_FIX_RE`
(post.py line 14), attempted after the group-1 `/`: expects `t_`, then a
digit run (backtracking longest-first), one arbitrary non-newline
character, and a greedy word run. Returns group 2 and the rest. -/
def thumbTail (cs : List Char) : Option (List Char × List Char) :=
  match cs with
  | 't' :: '_' :: rest =>
    let run := rest.takeWhile isDigitChar
    match tryRun rest run
        (fun after => match after with
          | c :: more =>
            if c = '\n' then none
            else
              let w := more.takeWhile isWordChar
              if w = [] then none else some (c :: w, more.drop w.length)
          | [] => none) run.length with
    | some (ds, tail, after) => some ('_' :: (ds ++ tail), after)
    | none => none
  | _ => none

/-- The lazy `.+?/` of `THUMBNAIL_FIX_RE` group 1 followed by group 2:
grows the non-newline content minimally until `/t_...` completes the
match. Returns `(group1 content including the closing slash, group2,
rest)`. -/
def thumbLazy : Nat → List Char → List Char → Option (List Char × List Char × List Char)
  | 0, _, _ => none
  | _ + 1, _, [] => none
  | fuel + 1, acc, c :: rest =>
    if c = '\n' then none
    else
      match c, acc, thumbTail rest with
      | '/', _ :: _, some (g2, after) => some ((('/' :: acc).reverse), g2, after)
      | _, _, _ => thumbLazy fuel (c :: acc) rest

/-- The fixed prefix `https?://ust\.chatango\.com/` of
`THUMBNAIL_FIX_RE` group 1. -/
def thumbPrefix (cs : List Char) : Option (List Char × List Char) :=
  match cs with
  | 'h' :: 't' :: 't' :: 'p' :: rest =>
    let (pfx, rest) :=
      match rest with
      | 's' :: r => (['h', 't', 't', 'p', 's'], r)
      | r => (['h', 't', 't', 'p'], r)
    let tail := [':', '/', '/', 'u', 's', 't', '.', 'c', 'h', 'a', 't', 'a', 'n', 'g', 'o', '.', 'c', 'o', 'm', '/']
    if rest.take tail.length = tail then some (pfx ++ tail, rest.drop tail.length)
    else none
  | _ => none

/-- One attempted match of `THUMBNAIL_FIX_RE` at the head of the input:
on success returns the replacement `\1l\2` and the rest after the match. -/
def thumbMatch (cs : List Char) : Option (List Char × List Char) :=
  match thumbPrefix cs with
  | none => none
  | some (pfx, rest) =>
    match thumbLazy rest.length [] rest with
    | some (content, g2, after) => some (pfx ++ content ++ 'l' :: g2, after)
    | none => none

/-- The global substitution `THUMBNAIL_FIX_RE.subn(r"\1l\2", raw)`
(post.py line 61): left-to-right, non-overlapping. -/
def thumbFixGo : Nat → List Char → List Char
  | 0, cs => cs
  | _ + 1, [] => []
  | fuel + 1, c :: rest =>
    match thumbMatch (c :: rest) with
    | some (rep, after) => rep ++ thumbFixGo fuel after
    | none => c :: thumbFixGo fuel rest

/-- `format_raw(raw)` (post.py lines 39-62): strip markup tags
(line-break tags become newlines), unescape character references, strip
trailing newlines, rewrite thumbnail URLs. -/
def format_raw (raw : String) : String :=
  if raw = "" then raw
  else
    let s1 := stripTagsGo raw.data.length raw.data
    let s2 := unescapeGo s1.length s1
    let s3 := stripTrailingNewlines s2
    ⟨thumbFixGo s3.length s3⟩

/-- `REPLY_RE.findall` (post.py line 15): all maximal word runs directly
preceded by `@`, left to right, non-overlapping. -/
def findMentions : Nat → List Char → List String
  | 0, _ => []
  | _ + 1, [] => []
  | fuel + 1, '@' :: rest =>
    let w := rest.takeWhile isWordChar
    if w = [] then findMentions fuel rest
    else ⟨w⟩ :: findMentions fuel (rest.drop w.length)
  | fuel + 1, _ :: rest => findMentions fuel rest

/-! ## post.py: channel/badge bit decoding (lines 113-118) -/

/-- `badge = (channels_and_badge >> 5) & 3` (post.py line 115). -/
def badge_of (x : Nat) : Nat := (x >>> 5) &&& 3

/-- `channel = (channels_and_badge >> 8) & 31` (post.py line 117). -/
def raw_channel_of (x : Nat) : Nat := (x >>> 8) &&& 31

/-- `channel = channel&1|((channel&8)>>2)|((channel&16)>>3)`
(post.py line 118). -/
def channel_of (x : Nat) : Nat :=
  let c := raw_channel_of x
  (c &&& 1) ||| ((c &&& 8) >>> 2) ||| ((c &&& 16) >>> 3)

/-- The inclusive bit-range read `bits[lo:hi]` used by the specification
text (low-order bit is bit 0); under this reading the raw channel clause
`bits[8:12]` agrees with `(x >> 8) & 31`. -/
def bitSlice (lo hi x : Nat) : Nat := (x >>> lo) % 2 ^ (hi - lo + 1)

/-! ## group.py: data model

`User` objects are mutable and shared between `Group._users` and
`Group._mods` (a moderator who joins is added, as the same object, to the
member set).  They are therefore modelled by a heap from allocation
identifier to `UserData`; the two Python sets become lists of
identifiers.  `User.__eq__` / `__hash__` compare names
case-insensitively, so set membership below is case-insensitive name
equality. -/

/-- The mutable state of a `User` (group.py lines 19-34): display name,
`_clients` mapping of client id to join time, and moderator flags. -/
structure UserData where
  name : String
  clients : List (Int × PyFloat)
  mod_flags : Int
deriving DecidableEq

/-- `User.new_client` (group.py lines 161-163). -/
def newClient (u : UserData) (cid : Int) (t : PyFloat) : UserData :=
  { u with clients := pyDictSet u.clients cid t }

/-- `User.remove_client` (group.py lines 155-159). -/
def removeClient (u : UserData) (cid : Int) : UserData :=
  { u with clients := pyDictDel u.clients cid }

/-- Update the heap cell of one identifier. -/
def heapSet (heap : List (Nat × UserData)) (i : Nat) (f : UserData → UserData) :
    List (Nat × UserData) :=
  heap.map (fun p => if p.1 = i then (p.1, f p.2) else p)

/-- The case-folded display name behind an identifier, the key that
`User.__eq__` and `User.__hash__` compare (group.py lines 73-81). -/
def lowerName (heap : List (Nat × UserData)) (i : Nat) : Option String :=
  (heap.lookup i).map (fun u => pyLower u.name)

/-- A `Ban` record (group.py lines 165-182); the `mod` field holds the
resolved moderator when found and the (lowercased) raw source string
otherwise, exactly as `_recv_blocklist` / `_recv_blocked` leave it. -/
structure Ban where
  user : String
  ip : String
  unid : String
  mod : String ⊕ Nat
  time : PyFloat
deriving DecidableEq

/-- A `Post` (post.py lines 64-135) with the attributes `Post._base` and
`Post.normal` / `Post.history` assign.  Mentions hold either the raw
`@name` string or the identifier of the resolved member. -/
structure Post where
  time : PyFloat
  post : String
  user : String
  user_id : Int
  mod_id : String
  unid : Option String
  pnum : Option String
  ip : String
  mentions : List (String ⊕ Nat)
  channel : Nat
  badge : Nat
  n_color : String
  f_color : String
  f_size : Int
  f_face : String
deriving DecidableEq

/-- Application events raised through `_call_event`, in emission order. -/
inductive GEvent where
  | on_message (p : Post)
  | on_history_done (batch : List Post)
  | on_no_more
  | on_ban (b : Ban)
  | on_banlist_update
  | on_member_join (u : String ⊕ Nat)
  | on_member_leave (u : String ⊕ Nat)
deriving DecidableEq

/-- The session state: the `Group` storage object together with the
`GroupProtocol` message-correlation and history attributes
(group.py lines 188-199 and 431-446), plus the observable traces of
raised events and sent commands. -/
structure GroupState where
  heap : List (Nat × UserData) := []
  nextId : Nat := 0
  users : List Nat := []
  mods : List Nat := []
  owner : Option String := none
  aid : Option String := none
  manager_username : String := ""
  manager_password : String := ""
  messages : List (String × Post) := []
  updates : List (String × String) := []
  history : List Post := []
  last_message : PyFloat := ⟨0, 0⟩
  history_count : Nat := 0
  no_more : Bool := false
  banlist : List Ban := []
  events : List GEvent := []
  sent : List (List String) := []
deriving DecidableEq

/-- Python set insertion for the mention set. -/
def pySetInsert [DecidableEq α] (l : List α) (a : α) : List α :=
  if a ∈ l then l else l ++ [a]

/-- The mention-resolution loop of `Post._base` (post.py lines 106-111):
a found `@name` is replaced by the member whose case-folded name matches. -/
def resolveMention (heap : List (Nat × UserData)) (users : List Nat) (m : String) :
    String ⊕ Nat :=
  match users.find? (fun i =>
      match heap.lookup i with
      | some u => pyLower u.name = pyLower m
      | none => false) with
  | some i => .inr i
  | none => .inl m

/-- `Post._base` (post.py lines 83-123).  For a named author with a
non-empty member set, line 101 reads `group_user.sessions`; `User`
defines no attribute called `sessions` (its client mapping is
`_clients` / `clients`), so that loop raises `AttributeError` on its
first iteration, modelled by `none`. -/
def Post.base (heap : List (Nat × UserData)) (users : List Nat) (raw : List String) :
    Option Post := do
  let r9 ← raw.get? 9
  let (n_color0, f_color, f_size, f_face) ← parse_formatting r9
  let message := ":".intercalate (raw.drop 9)
  let user0 ← raw.get? 1
  let r3 ← raw.get? 3
  let uid ← pyInt? r3
  let (user, n_color) ←
    if user0 = "" then do
      let r2 ← raw.get? 2
      if r2 ≠ "" then pure ("#" ++ r2, "")
      else do
        let a ← aid n_color0 r3
        pure ("!anon" ++ a, "")
    else
      if users.isEmpty then pure (user0, n_color0) else none
  let mentions := (findMentions message.data.length message.data).foldl
      (fun acc m => pySetInsert acc (resolveMention heap users m)) []
  let r7 ← raw.get? 7
  let cab ← pyInt? r7
  let r0 ← raw.get? 0
  let t ← pyFloat? r0
  let r4 ← raw.get? 4
  let r6 ← raw.get? 6
  pure { time := t, post := format_raw message, user := user, user_id := uid,
         mod_id := r4, unid := none, pnum := none, ip := r6,
         mentions := mentions, channel := channel_of cab.toNat,
         badge := badge_of cab.toNat, n_color := n_color, f_color := f_color,
         f_size := f_size, f_face := f_face }

/-- `Post.normal` (post.py lines 125-129): a live post carries its
provisional number in `raw[5]`. -/
def Post.normal (heap : List (Nat × UserData)) (users : List Nat) (raw : List String) :
    Option Post := do
  let p ← Post.base heap users raw
  let r5 ← raw.get? 5
  pure { p with pnum := some r5 }

/-- `Post.history` (post.py lines 131-135): a backfill post carries its
durable id in `raw[5]` and skips correlation. -/
def Post.history (heap : List (Nat × UserData)) (users : List Nat) (raw : List String) :
    Option Post := do
  let p ← Post.base heap users raw
  let r5 ← raw.get? 5
  pure { p with unid := some r5 }

/-! ## group.py: message correlation and history handlers -/

/-- `GroupProtocol._recv_b` (group.py lines 285-295): a freshly received
post either joins a buffered id update (emitting the resolved post and
deleting the update) or is buffered by provisional number. -/
def recv_b (st : GroupState) (args : List String) : Option GroupState := do
  let post ← Post.normal st.heap st.users args
  let st := if PyFloat.lt st.last_message post.time then { st with last_message := post.time } else st
  match post.pnum with
  | none => none
  | some p =>
    match st.updates.lookup p with
    | some u =>
      some { st with
             events := st.events ++ [.on_message { post with unid := some u }]
             updates := pyDictDel st.updates p }
    | none => some { st with messages := pyDictSet st.messages p post }

/-- `GroupProtocol._recv_u` (group.py lines 297-305): an id update either
joins a buffered post (emitting it resolved and deleting it) or is
buffered.  When the update has no second field, Python deletes the
buffered post and then raises `IndexError`; the deletion is kept. -/
def recv_u (st : GroupState) (args : List String) : Option GroupState := do
  let a0 ← args.get? 0
  match st.messages.lookup a0 with
  | some post =>
    let st := { st with messages := pyDictDel st.messages a0 }
    match args.get? 1 with
    | none => some st
    | some a1 =>
      some { st with events := st.events ++ [.on_message { post with unid := some a1 }] }
  | none => do
    let a1 ← args.get? 1
    some { st with updates := pyDictSet st.updates a0 a1 }

/-- `GroupProtocol._recv_i` (group.py lines 307-312): history posts are
accumulated in the buffer. -/
def recv_i (st : GroupState) (args : List String) : Option GroupState := do
  let post ← Post.history st.heap st.users args
  let st := if PyFloat.lt st.last_message post.time then { st with last_message := post.time } else st
  some { st with history := st.history ++ [post] }

/-- `GroupProtocol._recv_gotmore` (group.py lines 324-328): flush the
accumulated history as one cloned list, clear the buffer, bump the
retrieval counter. -/
def recv_gotmore (st : GroupState) : GroupState :=
  { st with
    events := st.events ++ [.on_history_done st.history]
    history := []
    history_count := st.history_count + 1 }

/-- `GroupProtocol._recv_nomore` (group.py lines 330-332). -/
def recv_nomore (st : GroupState) : GroupState :=
  { st with no_more := true, events := st.events ++ [.on_no_more] }

/-- `Group.username` (group.py lines 452-460). -/
def username (st : GroupState) : String :=
  match st.aid with
  | some a => "!anon" ++ a
  | none =>
    if st.manager_password = "" then "#" ++ st.manager_username else st.manager_username

/-- `Group.has_permission` (group.py lines 520-527).  The owner check
short-circuits; a caller that matches a moderator by exact name reaches
`bool(mod.mod_flags & flags)`, where `mod_flags` is a `ModFlags` object
and `base.Flags` defines no `__and__`, so Python raises `TypeError`
(modelled `none`); otherwise the method returns `False`. -/
def has_permission (st : GroupState) (_flags : Int) : Option Bool :=
  let uname := username st
  if st.owner = some uname then some true
  else
    match st.mods.find? (fun i =>
        match st.heap.lookup i with
        | some u => u.name = uname
        | none => false) with
    | some _ => none
    | none => some false

/-- `Group.request_banlist` (group.py lines 633-636). -/
def request_banlist (st : GroupState) : Option GroupState :=
  match has_permission st 192 with
  | none => none
  | some true => some { st with sent := st.sent ++ [["blocklist", "block", "", "next", "500"]] }
  | some false => some st

/-- `Group.get_more` (group.py lines 514-518): once the no-more flag is
set, the method does nothing; otherwise it sends one `get_more` command
carrying the retrieval counter. -/
def get_more (st : GroupState) (amt : Int) : GroupState :=
  if ¬ st.no_more then
    { st with sent := st.sent ++ [["get_more", toString amt, toString st.history_count]] }
  else st

/-! ## group.py: ban handlers -/

/-- The moderator resolution shared by the two ban handlers
(group.py lines 376-380 and 387-391): the lowercased source string, or
the moderator whose lowercased name equals it. -/
def resolveBanSource (st : GroupState) (source : String) : String ⊕ Nat :=
  match st.mods.find? (fun i =>
      match st.heap.lookup i with
      | some u => pyLower u.name = pyLower source
      | none => false) with
  | some i => .inr i
  | none => .inl (pyLower source)

/-- `GroupProtocol._recv_blocklist` (group.py lines 367-383).  Its first
statement, `self._storage._banlist.clear()` (line 369), reads an
attribute that `Group.__init__` never creates — the storage object
defines `_bans` (group.py line 444), not `_banlist` — so the handler
raises `AttributeError` for every input before touching any state.
(The ancestor implementation, ch.py lines 497-514, owns a `_banlist`
list and additionally discards records whose target field is empty.) -/
def recv_blocklist (_st : GroupState) (_args : List String) : Option GroupState :=
  none

/-- The record loop of `_recv_blocklist` as written
(group.py lines 370-382): the `Ban` records the loop builds and appends,
in order.  Only the 5-field sanity check filters records; a record whose
target field (`params[2]`) is empty is still turned into a `Ban`.  A
non-float time field raises `ValueError`, aborting the rest of the loop. -/
def blocklist_go (st : GroupState) : List String → List Ban → List Ban
  | [], acc => acc
  | sec :: rest, acc =>
    let params := pySplitChar sec ':'
    if params.length = 5 then
      let p0 := (params.get? 0).getD ""
      let p1 := (params.get? 1).getD ""
      let p2 := (params.get? 2).getD ""
      let p3 := (params.get? 3).getD ""
      let p4 := (params.get? 4).getD ""
      match pyFloat? p3 with
      | none => acc
      | some t =>
        blocklist_go st rest (acc ++
          [{ user := p2, ip := p1, unid := p0, mod := resolveBanSource st p4, time := t }])
    else blocklist_go st rest acc

/-- The records `_recv_blocklist` would append for the given args:
`':'.join(args)` split on `;`, each section split on `:` into 5 fields. -/
def blocklist_records (st : GroupState) (args : List String) : List Ban :=
  blocklist_go st (pySplitChar (":".intercalate args) ';') []

/-- `GroupProtocol._recv_blocked` (group.py lines 385-394): builds a
`Ban` from the args with no check on the target field, raises `on_ban`,
then requests a fresh ban list.  A raise inside `request_banlist` (the
`ModFlags` TypeError path of `has_permission`) happens after the event
was scheduled, so the event survives it. -/
def recv_blocked (st : GroupState) (args : List String) : Option GroupState := do
  let a3 ← args.get? 3
  let source := resolveBanSource st a3
  let a2 ← args.get? 2
  let a1 ← args.get? 1
  let a0 ← args.get? 0
  let a4 ← args.get? 4
  let t ← pyFloat? a4
  let b : Ban := { user := a2, ip := a1, unid := a0, mod := source, time := t }
  let st := { st with events := st.events ++ [.on_ban b] }
  pure ((request_banlist st).getD st)

/-! ## group.py: participant roster -/

/-- Outcome of one of the two linear scans of `User.init_participant`:
the handler raised, the scan fell through, or it hit a member (returning
the mutated heap, the identifier, and the joined flag it reports). -/
inductive ScanOut where
  | raise
  | miss
  | hit (heap : List (Nat × UserData)) (id : Nat) (joined : Bool)

/-- One scan loop of `User.init_participant` (group.py lines 102-112 over
the moderator set, lines 114-124 over the member set).  A
case-insensitive name match adds or removes the client entry and returns
the member; otherwise, for a logout event (`joined == 2`), a member
owning the client id has it removed.  `int(args[1])` / `float(args[6])`
failures (including missing indices) raise. -/
def scanParticipant (heap : List (Nat × UserData)) (joined : Int) (uname : String)
    (arg1 arg6 : Option String) : List Nat → ScanOut
  | [] => .miss
  | mid :: rest =>
    match heap.lookup mid with
    | none => scanParticipant heap joined uname arg1 arg6 rest
    | some u =>
      if pyLower u.name = pyLower uname then
        if joined ≠ 0 then
          match arg1.bind pyInt?, arg6.bind pyFloat? with
          | some cid, some t => .hit (heapSet heap mid (fun v => newClient v cid t)) mid true
          | _, _ => .raise
        else
          match arg1.bind pyInt? with
          | some cid => .hit (heapSet heap mid (fun v => removeClient v cid)) mid false
          | none => .raise
      else if joined = 2 then
        match arg1.bind pyInt? with
        | none => .raise
        | some cid =>
          if (u.clients.lookup cid).isSome then
            .hit (heapSet heap mid (fun v => removeClient v cid)) mid false
          else scanParticipant heap joined uname arg1 arg6 rest
      else scanParticipant heap joined uname arg1 arg6 rest

/-- `User.init_participant` (group.py lines 91-132): moderators are
consulted first, then members; the placeholder name `None` yields a bare
string; otherwise a fresh `User` is allocated with the client entry.
Returns the new heap, the next allocation id, the participant, and the
joined flag. -/
def init_participant (st : GroupState) (args : List String) :
    Option (List (Nat × UserData) × Nat × (String ⊕ Nat) × Bool) := do
  let a0 ← args.get? 0
  let joined ← pyInt? a0
  let uname ← args.get? 3
  let arg1 := args.get? 1
  let arg6 := args.get? 6
  match scanParticipant st.heap joined uname arg1 arg6 st.mods with
  | .raise => none
  | .hit h mid j => some (h, st.nextId, .inr mid, j)
  | .miss =>
    match scanParticipant st.heap joined uname arg1 arg6 st.users with
    | .raise => none
    | .hit h uid j => some (h, st.nextId, .inr uid, j)
    | .miss =>
      if uname = "None" then
        if joined = 2 then do
          let a4 ← args.get? 4
          some (st.heap, st.nextId, .inl a4, true)
        else some (st.heap, st.nextId, .inl "anon", true)
      else
        match arg1.bind pyInt?, arg6.bind pyFloat? with
        | some cid, some t =>
          some (st.heap ++ [(st.nextId, { name := uname, clients := [(cid, t)], mod_flags := 0 })],
                st.nextId + 1, .inr st.nextId, true)
        | _, _ => none

/-- Python `set.add` on the member set: a `User` equal (by case-folded
name) to an existing element is not added. -/
def usersAdd (heap : List (Nat × UserData)) (users : List Nat) (uid : Nat) : List Nat :=
  if users.any (fun i => lowerName heap i = lowerName heap uid) then users
  else users ++ [uid]

/-- `GroupProtocol._recv_participant` (group.py lines 263-271): a joined
`User` is added to the member set and `on_member_join` is raised; a left
participant raises `on_member_leave`. -/
def recv_participant (st : GroupState) (args : List String) : Option GroupState := do
  let (heap, nid, part, joined) ← init_participant st args
  let st := { st with heap := heap, nextId := nid }
  if joined then
    let users :=
      match part with
      | .inr uid => usersAdd st.heap st.users uid
      | .inl _ => st.users
    some { st with users := users, events := st.events ++ [.on_member_join part] }
  else
    some { st with events := st.events ++ [.on_member_leave part] }

/-- A sequence of participant events applied in order; a handler that
raises leaves the state unchanged. -/
def processParticipants (evs : List (List String)) (st : GroupState) : GroupState :=
  evs.foldl (fun s a => (recv_participant s a).getD s) st

/-- The identifiers reachable from the member set and the moderator set. -/
def rosterIds (st : GroupState) : List Nat := st.users ++ st.mods

/-- The roster invariant of claim C9: every roster identifier is
allocated, no two distinct roster identifiers carry case-insensitively
equal names, and allocation identifiers are below the allocation
counter. -/
def Inv (st : GroupState) : Prop :=
  (∀ i ∈ rosterIds st, (st.heap.lookup i).isSome = true) ∧
  (∀ i ∈ rosterIds st, ∀ j ∈ rosterIds st,
    lowerName st.heap i = lowerName st.heap j → i = j) ∧
  (∀ p ∈ st.heap, p.1 < st.nextId)

instance (st : GroupState) : Decidable (Inv st) := by
  unfold Inv
  infer_instance

/-! ## Specification-side definitions

These definitions transcribe claim language (not code) and are compared
against the embedded code in the theorems below. -/

/-- Claim C7 language: the first candidate flag whose boolean is true,
with its implied bits. -/
def firstTrueCandidate : List (Bool × Nat) → Option Nat
  | [] => none
  | (t, f) :: rest => if t then some (withImplied f) else firstTrueCandidate rest

/-- The union mask of all candidate flags (with implied bits). -/
def candidatesMask : List (Bool × Nat) → Nat
  | [] => 0
  | (_, f) :: rest => withImplied f ||| candidatesMask rest

/-- Claim C7 language: the union mask of every candidate flag other than
the first true one. -/
def otherCandidatesMask : List (Bool × Nat) → Nat
  | [] => 0
  | (t, f) :: rest => if t then candidatesMask rest else withImplied f ||| otherCandidatesMask rest

/-! ## Concrete scenario inputs -/

/-- A session state with one named member, `alice`, holding one client
session: the ordinary situation after a roster snapshot. -/
def c1State : GroupState :=
  { heap := [(0, { name := "alice", clients := [(55, ⟨1, 0⟩)], mod_flags := 0 })]
  , nextId := 1, users := [0] }

/-- A well-formed `b` command for a named-author post with provisional
number `777` and body `hello`. -/
def c1BArgs : List String :=
  ["100.0", "bob", "", "12345", "m1", "777", "1.2.3.4", "0", "x", "hello"]

/-- The matching `u` command assigning durable id `xyz` to provisional
number `777`. -/
def c1UArgs : List String := ["777", "xyz"]

/-- A 5-field blocklist record whose target field (third) is empty. -/
def c2BlocklistArgs : List String := ["uid1", "1.2.3.4", "", "1590000000.0", "modname"]

/-- A `blocked` command whose target field (`args[2]`) is empty. -/
def c2BlockedArgs : List String := ["uid1", "1.2.3.4", "", "modname", "1590000000.0"]

/-- The `Ban` record both C2 handlers build from the inputs above. -/
def c2EmptyTargetBan : Ban :=
  { user := "", ip := "1.2.3.4", unid := "uid1", mod := .inl "modname", time := ⟨15900000000, 1⟩ }

/-- The raw message of the C8 markup scenario. -/
def c8Raw : String := "<n1A2B3/><f x11FF0000=\"2\">hello"

/-! # Theorems -/

/-! ## Supporting lemmas for the radio-flag characterisation (C7) -/

theorem updateScan_radio_some (args : List (Bool × Nat)) (s c r : Nat) :
    updateScan true args (s, c, some r) = (s, c ||| candidatesMask args, some r) := by
  induction args generalizing c with
  | nil => simp [updateScan, candidatesMask]
  | cons p rest ih =>
    obtain ⟨t, f⟩ := p
    simp [updateScan, candidatesMask, ih, Nat.or_assoc]

theorem updateScan_radio_none (args : List (Bool × Nat)) (s c : Nat) :
    updateScan true args (s, c, none) =
      (s, c ||| otherCandidatesMask args, firstTrueCandidate args) := by
  induction args generalizing c with
  | nil => simp [updateScan, otherCandidatesMask, firstTrueCandidate]
  | cons p rest ih =>
    obtain ⟨t, f⟩ := p
    cases t with
    | true =>
      simp [updateScan, otherCandidatesMask, firstTrueCandidate, updateScan_radio_some]
    | false =>
      simp [updateScan, otherCandidatesMask, firstTrueCandidate, ih, Nat.or_assoc]

/-- Claim C7: for every candidate list given to `GroupFlags.update` with
`radio=True` — in particular `[(true,A),(false,B),(true,C)]` — the
resulting set-mask contains exactly the first candidate flag whose
boolean is true (plus its implied bits) and nothing when no candidate is
true, and every other candidate flag is placed in the clear-mask; so at
most one candidate (the first true one) ends up in the set-mask. -/
theorem claim_C7 : ∀ (args : List (Bool × Nat)) (A B C : Nat),
    GroupFlags.update args true = ((firstTrueCandidate args).getD 0, otherCandidatesMask args) ∧
    GroupFlags.update [(true, A), (false, B), (true, C)] true =
      (withImplied A, withImplied B ||| withImplied C) := by
  intro args A B C
  constructor
  · unfold GroupFlags.update
    rw [updateScan_radio_none]
    cases h : firstTrueCandidate args <;> simp [h]
  · unfold GroupFlags.update
    rw [updateScan_radio_none]
    simp [firstTrueCandidate, otherCandidatesMask, candidatesMask]

/-- Claim C5 counterexample: at the combined field `x = 32` the decoded
badge is `1` (the mod badge: bit 5 is set) but `bits[6:7]` of `32` is
`0`, so the badge is not `bits[6:7]` of the field. -/
theorem claim_C5_counterexample : ¬ badge_of 32 = bitSlice 6 7 32 := by decide

/-- Claim C5 (amended): for every non-negative combined field `x`, the
badge equals `bits[5:6]` of `x` (not `bits[6:7]`; values 0 none, 1 mod,
2 staff), the raw channel equals `bits[8:12]` of `x`, the decoded
channel is `(raw&1) | ((raw&8)>>2) | ((raw&16)>>3)`, and the decoded
channel always lands in `{0 none, 1 red, 2 blue, 3 both}`. -/
theorem claim_C5 : ∀ x : Nat,
    badge_of x = bitSlice 5 6 x ∧
    raw_channel_of x = bitSlice 8 12 x ∧
    channel_of x = ((raw_channel_of x &&& 1) ||| ((raw_channel_of x &&& 8) >>> 2) |||
      ((raw_channel_of x &&& 16) >>> 3)) ∧
    channel_of x < 4 := by
  intro x
  refine ⟨?_, ?_, rfl, ?_⟩
  · show (x >>> 5) &&& 3 = (x >>> 5) % 2 ^ (6 - 5 + 1)
    exact Nat.and_pow_two_sub_one_eq_mod (x >>> 5) 2
  · show (x >>> 8) &&& 31 = (x >>> 8) % 2 ^ (12 - 8 + 1)
    exact Nat.and_pow_two_sub_one_eq_mod (x >>> 8) 5
  · have hb : ∀ r, r < 32 →
        ((r &&& 1) ||| ((r &&& 8) >>> 2) ||| ((r &&& 16) >>> 3)) < 4 := by decide
    have hr : raw_channel_of x < 32 :=
      Nat.lt_succ_of_le (Nat.and_le_right)
    exact hb (raw_channel_of x) hr

/-- Claim C6: every `gotmore` flush emits the accumulated history as one
cloned list, empties the buffer and increments the retrieval counter by
exactly one; the `nomore` signal sets the no-more flag, and any
`get_more` call in a state with the flag set sends nothing and leaves
the state unchanged. -/
theorem claim_C6 : ∀ (st : GroupState) (amt : Int),
    (recv_gotmore st).events = st.events ++ [GEvent.on_history_done st.history] ∧
    (recv_gotmore st).history = [] ∧
    (recv_gotmore st).history_count = st.history_count + 1 ∧
    (recv_nomore st).no_more = true ∧
    (st.no_more = true → get_more st amt = st) := by
  intro st amt
  refine ⟨rfl, rfl, rfl, rfl, fun h => ?_⟩
  simp [get_more, h]

/-- Witness for C6 at a concrete state: after `nomore`, `get_more 20`
leaves the state untouched, and a concrete flush behaves as stated. -/
theorem claim_C6_witness :
    get_more (recv_nomore {}) 20 = recv_nomore {} ∧
    (recv_gotmore {}).history = ([] : List Post) := by
  refine ⟨(claim_C6 (recv_nomore {}) 20).2.2.2.2 rfl, (claim_C6 {} 20).2.1⟩

/-- Claim C10: `FONT_FACES` has exactly 9 entries (valid indices 0-8),
yet the `f_face` setter clamps any integer argument `a ≥ 9` to
`min(len(FONT_FACES), max(0, a)) = 9`, so the subsequent `f_face`
property read indexes `FONT_FACES[9]` and raises `IndexError`: reading
`f_face` after an arbitrary integer set is not total. -/
theorem claim_C10 :
    FONT_FACES.length = 9 ∧
    ∀ a : Int, 9 ≤ a →
      f_face_set (.inr a) = .inr 9 ∧ f_face_get (f_face_set (.inr a)) = none := by
  refine ⟨rfl, fun a ha => ?_⟩
  have hset : f_face_set (.inr a) = .inr 9 := by
    simp only [f_face_set, FONT_FACES]
    norm_num
    omega
  refine ⟨hset, ?_⟩
  rw [hset]
  decide

/-- Witness for C10 at the concrete out-of-range index 42. -/
theorem claim_C10_witness :
    f_face_set (.inr 42) = .inr 9 ∧ f_face_get (f_face_set (.inr 42)) = none :=
  (claim_C10.2 42 (by norm_num))

/-- Claim C8: the raw message `<n1A2B3/><f x11FF0000="2">hello` decodes
to name color `1A2B3`, font color `FF0000`, size 11, the face of index 2
(`Georgia`), and body `hello`; the combined size+color token is
recognised by its length modulo 3 equalling 2 — a token whose length is
not `2 mod 3` (here `FF0000`) is treated as color-only and keeps the
default size. -/
theorem claim_C8 :
    parse_formatting c8Raw = some ("1A2B3", "FF0000", 11, "Georgia") ∧
    FONT_FACES.get? 2 = some "Georgia" ∧
    format_raw c8Raw = "hello" ∧
    String.length "11FF0000" % 3 = 2 ∧
    parse_formatting "<f x22FF0000=\"0\">hi" = some ("", "FF0000", 22, "Arial") ∧
    parse_formatting "<f xFF0000=\"0\">hi" = some ("", "FF0000", 11, "Arial") := by
  refine ⟨by decide, rfl, by decide, rfl, by decide, by decide⟩

/-- Claim C4: `server_num` is deterministic (it is a pure function of
the room name alone); every room name present in the override table maps
straight to the shard number of the table, before normalisation,
validation and the weighted lookup are even reached; and every name not
in the table that, after folding hyphens and underscores to the filler
character, still contains a non-alphanumeric character raises the
validation error. -/
theorem claim_C4 :
    (∀ p ∈ SPECIALS, server_num p.1 = Except.ok p.2) ∧
    (∀ g : String, SPECIALS.lookup g = none →
      (∃ c ∈ (normalizeGroup g).data, isAlnumChar c = false) →
      server_num g = Except.error "invalid character in group name") := by
  constructor
  · decide
  · intro g hlk hbad
    have halnum : pyIsAlnum (normalizeGroup g) = false := by
      obtain ⟨c, hc, hcf⟩ := hbad
      simp only [pyIsAlnum, Bool.and_eq_false_iff]
      right
      exact List.all_eq_false.mpr ⟨c, hc, by simp [hcf]⟩
    unfold server_num
    rw [hlk]
    simp [halnum]

/-- Witness for C4: the override name `de-livechat` short-circuits to
shard 5 and the invalid name `ab cd` raises the validation error. -/
theorem claim_C4_witness :
    server_num "de-livechat" = Except.ok 5 ∧
    server_num "ab cd" = Except.error "invalid character in group name" := by
  constructor
  · exact claim_C4.1 ("de-livechat", 5) (by decide)
  · exact claim_C4.2 "ab cd" (by decide) ⟨' ', by decide, by decide⟩

/-- Claim C2 (code bug evaluation): an inbound ban record with an empty
target field is not discarded by the code.  `_recv_blocklist` raises
`AttributeError` on every input (it reads the never-created `_banlist`
attribute), so the wholesale replace never happens at all; the record
loop as written performs only the 5-field sanity check and would turn
the empty-target record into a `Ban`; and `_recv_blocked` raises
`on_ban` carrying the empty-target `Ban` instead of discarding it. -/
theorem claim_C2 :
    (∀ (st : GroupState) (args : List String), recv_blocklist st args = none) ∧
    blocklist_records {} c2BlocklistArgs = [c2EmptyTargetBan] ∧
    (recv_blocked {} c2BlockedArgs).map GroupState.events =
      some [GEvent.on_ban c2EmptyTargetBan] := by
    refine ⟨fun _ _ => rfl, by decide, by decide⟩

/-- Claim C1 (code bug evaluation): in the ordinary state where the
member set is non-empty, the body event of a named-author post makes
`Post.normal` read the nonexistent `User.sessions` attribute
(post.py line 101) and `_recv_b` dies before touching the correlation
maps; whichever order the two events arrive in, no `on_message` is ever
emitted for provisional number 777 and the pending id stays buffered in
`_updates` forever, violating exactly-once resolved delivery. -/
theorem claim_C1 :
    recv_b c1State c1BArgs = none ∧
    ((recv_u c1State c1UArgs).getD c1State).updates.lookup "777" = some "xyz" ∧
    recv_b ((recv_u c1State c1UArgs).getD c1State) c1BArgs = none ∧
    ((recv_u c1State c1UArgs).getD c1State).events = [] := by
  refine ⟨by decide, by decide, by decide, by decide⟩

/-! ## Digit lemmas for the anonymous-id round trip (C3) -/

theorem char_eq_of_toNat {c d : Char} (h : c.toNat = d.toNat) : c = d := by
  rcases c with ⟨⟨cv, hc⟩, pc⟩
  rcases d with ⟨⟨dv, hd⟩, pd⟩
  simp [Char.toNat, UInt32.toNat] at h
  subst h
  rfl

theorem digit_cases {c : Char} (h : isDigitChar c = true) :
    c = '0' ∨ c = '1' ∨ c = '2' ∨ c = '3' ∨ c = '4' ∨
    c = '5' ∨ c = '6' ∨ c = '7' ∨ c = '8' ∨ c = '9' := by
  have hb : 48 ≤ c.toNat ∧ c.toNat ≤ 57 := by
    simpa [isDigitChar] using h
  obtain ⟨h1, h2⟩ := hb
  have hc : Char.ofNat c.toNat = c := Char.ofNat_toNat c
  set n := c.toNat with hn
  clear_value n
  interval_cases n <;> subst hc <;> decide

theorem pyInt?_digit {c : Char} (h : isDigitChar c = true) :
    pyInt? ⟨[c]⟩ = some (digitVal c : Int) := by
  rcases digit_cases h with h|h|h|h|h|h|h|h|h|h <;> subst h <;> decide

theorem digitVal_lt_ten {c : Char} (h : isDigitChar c = true) : digitVal c < 10 := by
  have hb : 48 ≤ c.toNat ∧ c.toNat ≤ 57 := by simpa [isDigitChar] using h
  simp only [digitVal]
  omega

theorem isDigit_digitToChar {n : Nat} (h : n < 10) :
    isDigitChar (digitToChar n) = true := by
  interval_cases n <;> decide

theorem digitVal_digitToChar {n : Nat} (h : n < 10) :
    digitVal (digitToChar n) = n := by
  interval_cases n <;> decide

theorem digitToChar_digitVal {c : Char} (h : isDigitChar c = true) :
    digitToChar (digitVal c) = c := by
  rcases digit_cases h with h|h|h|h|h|h|h|h|h|h <;> subst h <;> decide

theorem emod_ten_nonneg (a : Int) : 0 ≤ a % 10 := Int.emod_nonneg a (by norm_num)

theorem emod_ten_lt (a : Int) : a % 10 < 10 := Int.emod_lt_of_pos a (by norm_num)

/-- One digit of the `aid` round trip: adding then subtracting the same
id digit modulo 10 recovers the seed digit. -/
theorem aidDigit_roundtrip {a b : Char} (ha : isDigitChar a = true)
    (hb : isDigitChar b = true) :
    ∃ z : Char, aidDigit (a, b) = some z ∧ isDigitChar z = true ∧
      reverseAidDigit (z, b) = some a := by
  have hA := pyInt?_digit ha
  have hB := pyInt?_digit hb
  set m : Int := ((digitVal a : Int) + (digitVal b : Int)) % 10 with hm
  have hm0 : 0 ≤ m := emod_ten_nonneg _
  have hm10 : m < 10 := emod_ten_lt _
  have hmnat : m.toNat < 10 := by omega
  have hg : pyInt? ⟨[digitToChar m.toNat]⟩ = some (m.toNat : Int) := by
    rw [pyInt?_digit (isDigit_digitToChar hmnat), digitVal_digitToChar hmnat]
  have harith : ((m.toNat : Int) - (digitVal b : Int)) % 10 = (digitVal a : Int) := by
    rw [Int.toNat_of_nonneg hm0, hm, Int.sub_emod, Int.emod_emod_of_dvd _ dvd_rfl,
      ← Int.sub_emod, Int.add_sub_cancel]
    exact Int.emod_eq_of_lt (by positivity) (by exact_mod_cast digitVal_lt_ten ha)
  refine ⟨digitToChar m.toNat, ?_, isDigit_digitToChar hmnat, ?_⟩
  · simp [aidDigit, hA, hB, hm]
  · calc reverseAidDigit (digitToChar m.toNat, b)
        = some (digitToChar ((((m.toNat : Int) - (digitVal b : Int)) % 10).toNat)) := by
          simp [reverseAidDigit, hg, hB]
      _ = some (digitToChar (digitVal a)) := by rw [harith, Int.toNat_natCast]
      _ = some a := by rw [digitToChar_digitVal ha]

/-- The digit-list round trip behind `reverse_aid ∘ aid`. -/
theorem aid_zip_roundtrip :
    ∀ (xs ys : List Char), xs.length = ys.length →
    (∀ c ∈ xs, isDigitChar c = true) → (∀ c ∈ ys, isDigitChar c = true) →
    ∃ zs : List Char, mapMOpt aidDigit (xs.zip ys) = some zs ∧
      mapMOpt reverseAidDigit (zs.zip ys) = some xs := by
  intro xs
  induction xs with
  | nil =>
    intro ys hlen _ _
    have hys : ys = [] := by
      cases ys with
      | nil => rfl
      | cons b bs => simp at hlen
    subst hys
    exact ⟨[], rfl, rfl⟩
  | cons a as ih =>
    intro ys hlen hxs hys
    cases ys with
    | nil => simp at hlen
    | cons b bs =>
      have ha : isDigitChar a = true := hxs a (by simp)
      have hb : isDigitChar b = true := hys b (by simp)
      obtain ⟨z, hz1, hz2, hz3⟩ := aidDigit_roundtrip ha hb
      obtain ⟨zs, hzs1, hzs2⟩ := ih bs (by simpa using hlen)
        (fun c hc => hxs c (by simp [hc])) (fun c hc => hys c (by simp [hc]))
      simp only [List.zip] at hzs1 hzs2 ⊢
      refine ⟨z :: zs, ?_, ?_⟩
      · simp [List.zipWith_cons_cons, mapMOpt, hz1, hzs1]
      · simp [List.zipWith_cons_cons, mapMOpt, hz3, hzs2]

theorem string_mk_data (s : String) : (⟨s.data⟩ : String) = s := by
  cases s
  rfl

theorem pyInt?_isSome_of_digits {s : String} (hne : s.data ≠ [])
    (hall : ∀ c ∈ s.data, isDigitChar c = true) : (pyInt? s).isSome = true := by
  unfold pyInt?
  split
  · rename_i rest heq
    exfalso
    have hc : isDigitChar '-' = true := by
      have := hall '-' (by rw [heq]; exact List.mem_cons_self _ _)
      exact this
    simp [isDigitChar] at hc
  · rename_i rest heq
    exfalso
    have hc : isDigitChar '+' = true := by
      have := hall '+' (by rw [heq]; exact List.mem_cons_self _ _)
      exact this
    simp [isDigitChar] at hc
  · rename_i cs hm1 hm2
    rw [if_pos ⟨hne, List.all_eq_true.mpr (fun c hc => hall c hc)⟩]
    rfl

/-- Claim C3 counterexample: the claim quantifies over every id string of
length at least 8, but for the 8-character id `abcdefgh` (whose
substring `[4:8]` holds no decimal digit) `aid` raises `ValueError`
(the digit-wise `int` calls sit outside the `try` block), so the
composition never produces the seed. -/
theorem claim_C3_counterexample :
    String.length "1234" = 4 ∧ pyIsDigit "1234" = true ∧
    8 ≤ String.length "abcdefgh" ∧
    aid "1234" "abcdefgh" = none ∧
    ¬ ∃ a, aid "1234" "abcdefgh" = some a ∧
      reverse_aid a "abcdefgh" = some "1234" := by
  have h0 : aid "1234" "abcdefgh" = none := by decide
  refine ⟨rfl, rfl, by decide, h0, ?_⟩
  rintro ⟨a, ha, _⟩
  rw [h0] at ha
  exact Option.noConfusion ha

/-- Claim C3 (amended): for every 4-character decimal seed and every id
of length at least 8 whose characters `[4:8]` are decimal digits (as
they are for every id the service issues), anonymous-id generation
composed with its modular-subtraction reversal is the identity:
`reverse_aid (aid seed id) id = seed`. -/
theorem claim_C3 :
    ∀ (seed gid : String), seed.data.length = 4 →
    (∀ c ∈ seed.data, isDigitChar c = true) →
    8 ≤ gid.data.length →
    (∀ c ∈ (strSlice gid 4 8).data, isDigitChar c = true) →
    ∃ a, aid seed gid = some a ∧ reverse_aid a gid = some seed := by
  intro seed gid hlen hdig hglen hgdig
  have hslice : (strSlice gid 4 8).data.length = 4 := by
    simp only [strSlice, List.length_take, List.length_drop]
    omega
  have h1 : rsplitHead '.' seed = seed := by
    unfold rsplitHead
    rw [if_neg]
    intro hmem
    have := hdig '.' hmem
    simp [isDigitChar] at this
  have h2 : strTakeRight seed 4 = seed := by
    unfold strTakeRight
    rw [hlen]
    simp [string_mk_data seed]
  have h3 : (pyInt? seed).isSome = true := by
    refine pyInt?_isSome_of_digits ?_ hdig
    intro hnil
    rw [hnil] at hlen
    simp at hlen
  obtain ⟨zs, hz1, hz2⟩ := aid_zip_roundtrip seed.data (strSlice gid 4 8).data
    (by omega) hdig hgdig
  refine ⟨⟨zs⟩, ?_, ?_⟩
  · simp only [aid, h1, h2, h3, if_true]
    rw [hz1]
    rfl
  · unfold reverse_aid
    show (mapMOpt reverseAidDigit (zs.zip (strSlice gid 4 8).data)).bind
      (fun out => some (⟨out⟩ : String)) = some seed
    rw [hz2]
    simp [string_mk_data]

/-- Witness for the amended C3 at seed `1234` and id `12345678`. -/
theorem claim_C3_witness :
    ∃ a, aid "1234" "12345678" = some a ∧
      reverse_aid a "12345678" = some "1234" :=
  claim_C3 "1234" "12345678" (by decide) (by decide) (by decide) (by decide)

/-! ## Heap and scan lemmas for the roster invariant (C9) -/

theorem newClient_name (u : UserData) (cid : Int) (t : PyFloat) :
    (newClient u cid t).name = u.name := rfl

theorem removeClient_name (u : UserData) (cid : Int) :
    (removeClient u cid).name = u.name := rfl

theorem lookup_heapSet (h : List (Nat × UserData)) (i j : Nat) (f : UserData → UserData) :
    (heapSet h i f).lookup j = (h.lookup j).map (fun u => if j = i then f u else u) := by
  induction h with
  | nil => rfl
  | cons p rest ih =>
    obtain ⟨k, v⟩ := p
    have hcons : heapSet ((k, v) :: rest) i f =
        (if k = i then (k, f v) else (k, v)) :: heapSet rest i f := by
      simp [heapSet]
    rw [hcons]
    by_cases hk : k = i
    · rw [if_pos hk]
      by_cases hj : j = k
      · have h1 : List.lookup j ((k, f v) :: heapSet rest i f) = some (f v) := by
          simp [List.lookup, hj]
        have h2 : List.lookup j ((k, v) :: rest) = some v := by simp [List.lookup, hj]
        rw [h1, h2]
        have hji : j = i := by rw [hj, hk]
        simp [hji]
      · have h1 : List.lookup j ((k, f v) :: heapSet rest i f) =
            List.lookup j (heapSet rest i f) := by
          simp [List.lookup, beq_eq_false_iff_ne.mpr hj]
        have h2 : List.lookup j ((k, v) :: rest) = List.lookup j rest := by
          simp [List.lookup, beq_eq_false_iff_ne.mpr hj]
        rw [h1, h2, ih]
    · rw [if_neg hk]
      by_cases hj : j = k
      · have h1 : List.lookup j ((k, v) :: heapSet rest i f) = some v := by
          simp [List.lookup, hj]
        have h2 : List.lookup j ((k, v) :: rest) = some v := by simp [List.lookup, hj]
        rw [h1, h2]
        have hji : ¬ j = i := by rw [hj]; exact hk
        simp [hji]
      · have h1 : List.lookup j ((k, v) :: heapSet rest i f) =
            List.lookup j (heapSet rest i f) := by
          simp [List.lookup, beq_eq_false_iff_ne.mpr hj]
        have h2 : List.lookup j ((k, v) :: rest) = List.lookup j rest := by
          simp [List.lookup, beq_eq_false_iff_ne.mpr hj]
        rw [h1, h2, ih]

theorem isSome_lookup_heapSet (h : List (Nat × UserData)) (i j : Nat) (f : UserData → UserData) :
    ((heapSet h i f).lookup j).isSome = ((h.lookup j)).isSome := by
  rw [lookup_heapSet]
  cases h.lookup j <;> rfl

theorem lowerName_heapSet {f : UserData → UserData} (hf : ∀ u, (f u).name = u.name)
    (h : List (Nat × UserData)) (i j : Nat) :
    lowerName (heapSet h i f) j = lowerName h j := by
  simp only [lowerName, lookup_heapSet, Option.map_map]
  cases h.lookup j with
  | none => rfl
  | some u => by_cases hj : j = i <;> simp [hj, hf, Function.comp]

theorem keys_heapSet {h : List (Nat × UserData)} {n : Nat} (hb : ∀ p ∈ h, p.1 < n)
    (i : Nat) (f : UserData → UserData) : ∀ p ∈ heapSet h i f, p.1 < n := by
  intro p hp
  simp only [heapSet, List.mem_map] at hp
  obtain ⟨q, hq, hpq⟩ := hp
  have hlt := hb q hq
  by_cases hq1 : q.1 = i
  · rw [if_pos hq1] at hpq
    rw [← hpq]
    simpa [hq1] using hlt
  · rw [if_neg hq1] at hpq
    rw [← hpq]
    exact hlt

theorem lookup_append_left {h1 h2 : List (Nat × UserData)} {k : Nat}
    (hk : ((h1.lookup k)).isSome = true) : (h1 ++ h2).lookup k = h1.lookup k := by
  induction h1 with
  | nil => simp [List.lookup] at hk
  | cons p rest ih =>
    obtain ⟨a, v⟩ := p
    by_cases ha : k = a
    · simp [List.lookup, ha]
    · have e1 : List.lookup k (((a, v) :: rest) ++ h2) = List.lookup k (rest ++ h2) := by
        simp [List.lookup, beq_eq_false_iff_ne.mpr ha]
      have e2 : List.lookup k ((a, v) :: rest) = List.lookup k rest := by
        simp [List.lookup, beq_eq_false_iff_ne.mpr ha]
      rw [e2] at hk
      rw [e1, e2]
      exact ih hk

theorem lookup_append_right {h1 h2 : List (Nat × UserData)} {k : Nat}
    (hk : h1.lookup k = none) : (h1 ++ h2).lookup k = h2.lookup k := by
  induction h1 with
  | nil => rfl
  | cons p rest ih =>
    obtain ⟨a, v⟩ := p
    by_cases ha : k = a
    · simp [List.lookup, ha] at hk
    · have e1 : List.lookup k (((a, v) :: rest) ++ h2) = List.lookup k (rest ++ h2) := by
        simp [List.lookup, beq_eq_false_iff_ne.mpr ha]
      have e2 : List.lookup k ((a, v) :: rest) = List.lookup k rest := by
        simp [List.lookup, beq_eq_false_iff_ne.mpr ha]
      rw [e2] at hk
      rw [e1]
      exact ih hk

theorem lookup_eq_none_of_keys {h : List (Nat × UserData)} {k : Nat}
    (hk : ∀ p ∈ h, p.1 ≠ k) : h.lookup k = none := by
  induction h with
  | nil => rfl
  | cons p rest ih =>
    obtain ⟨a, v⟩ := p
    have ha : a ≠ k := hk (a, v) (by simp)
    have e : List.lookup k ((a, v) :: rest) = List.lookup k rest := by
      simp [List.lookup, beq_eq_false_iff_ne.mpr (fun hc => ha hc.symm)]
    rw [e]
    exact ih (fun q hq => hk q (by simp [hq]))

theorem scanParticipant_hit {heap : List (Nat × UserData)} {joined : Int} {uname : String}
    {arg1 arg6 : Option String} :
    ∀ {ids : List Nat} {h : List (Nat × UserData)} {mid : Nat} {j : Bool},
    scanParticipant heap joined uname arg1 arg6 ids = .hit h mid j →
    mid ∈ ids ∧
    (∀ k, lowerName h k = lowerName heap k) ∧
    (∀ k, ((h.lookup k)).isSome = ((heap.lookup k)).isSome) ∧
    (∀ n, (∀ p ∈ heap, p.1 < n) → ∀ p ∈ h, p.1 < n) := by
  intro ids
  induction ids with
  | nil => intro h mid j hscan; exact absurd hscan (by simp [scanParticipant])
  | cons mid0 rest ih =>
    intro h mid j hscan
    unfold scanParticipant at hscan
    split at hscan
    · obtain ⟨hmem, hrest⟩ := ih hscan
      exact ⟨by simp [hmem], hrest⟩
    · rename_i u hu
      split at hscan
      · split at hscan
        · split at hscan
          · cases hscan
            refine ⟨by simp, fun k => lowerName_heapSet (fun v => newClient_name v _ _) _ _ _,
              fun k => isSome_lookup_heapSet _ _ _ _, fun n hb => keys_heapSet hb _ _⟩
          · cases hscan
        · split at hscan
          · cases hscan
            refine ⟨by simp, fun k => lowerName_heapSet (fun v => removeClient_name v _) _ _ _,
              fun k => isSome_lookup_heapSet _ _ _ _, fun n hb => keys_heapSet hb _ _⟩
          · cases hscan
      · split at hscan
        · split at hscan
          · cases hscan
          · split at hscan
            · cases hscan
              refine ⟨by simp, fun k => lowerName_heapSet (fun v => removeClient_name v _) _ _ _,
                fun k => isSome_lookup_heapSet _ _ _ _, fun n hb => keys_heapSet hb _ _⟩
            · obtain ⟨hmem, hrest⟩ := ih hscan
              exact ⟨by simp [hmem], hrest⟩
        · obtain ⟨hmem, hrest⟩ := ih hscan
          exact ⟨by simp [hmem], hrest⟩

theorem scanParticipant_miss {heap : List (Nat × UserData)} {joined : Int} {uname : String}
    {arg1 arg6 : Option String} :
    ∀ {ids : List Nat},
    scanParticipant heap joined uname arg1 arg6 ids = .miss →
    ∀ i ∈ ids, ∀ u, heap.lookup i = some u → pyLower u.name ≠ pyLower uname := by
  intro ids
  induction ids with
  | nil => intro _ i hi; simp at hi
  | cons mid0 rest ih =>
    intro hscan i hi u hu
    unfold scanParticipant at hscan
    split at hscan
    · rename_i hnone
      rcases List.mem_cons.mp hi with him | him
      · subst him
        rw [hnone] at hu
        cases hu
      · exact ih hscan i him u hu
    · rename_i u0 hsome
      split at hscan
      · split at hscan
        · split at hscan <;> cases hscan
        · split at hscan <;> cases hscan
      · rename_i hname
        have hcont : scanParticipant heap joined uname arg1 arg6 rest = .miss := by
          split at hscan
          · split at hscan
            · cases hscan
            · split at hscan
              · cases hscan
              · exact hscan
          · exact hscan
        rcases List.mem_cons.mp hi with him | him
        · subst him
          rw [hsome] at hu
          injection hu with hu2
          subst hu2
          exact hname
        · exact ih hcont i him u hu

theorem mem_usersAdd {heap : List (Nat × UserData)} {us : List Nat} {uid i : Nat}
    (h : i ∈ usersAdd heap us uid) : i ∈ us ∨ i = uid := by
  unfold usersAdd at h
  split at h
  · exact Or.inl h
  · rcases List.mem_append.mp h with hm | hm
    · exact Or.inl hm
    · simp at hm
      exact Or.inr hm

theorem init_participant_cases {st : GroupState} {args : List String}
    {heap2 : List (Nat × UserData)} {nid2 : Nat} {part : String ⊕ Nat} {joined : Bool}
    (h : init_participant st args = some (heap2, nid2, part, joined)) :
    (∃ mid, part = .inr mid ∧ nid2 = st.nextId ∧ (mid ∈ st.mods ∨ mid ∈ st.users) ∧
      (∀ k, lowerName heap2 k = lowerName st.heap k) ∧
      (∀ k, ((heap2.lookup k)).isSome = ((st.heap.lookup k)).isSome) ∧
      (∀ n, (∀ p ∈ st.heap, p.1 < n) → ∀ p ∈ heap2, p.1 < n)) ∨
    (heap2 = st.heap ∧ nid2 = st.nextId ∧ ∃ sname, part = .inl sname) ∨
    (∃ newU : UserData,
      heap2 = st.heap ++ [(st.nextId, newU)] ∧ nid2 = st.nextId + 1 ∧
      part = .inr st.nextId ∧
      (∀ i, i ∈ st.mods ∨ i ∈ st.users → ∀ u, st.heap.lookup i = some u →
        pyLower u.name ≠ pyLower newU.name)) := by
  unfold init_participant at h
  cases ha0 : args.get? 0 with
  | none => rw [ha0] at h; cases h
  | some a0 =>
  rw [ha0] at h
  simp only [Option.bind_eq_bind, Option.some_bind] at h
  cases hj0 : pyInt? a0 with
  | none => rw [hj0] at h; cases h
  | some joined0 =>
  rw [hj0] at h
  simp only [Option.some_bind] at h
  cases ha3 : args.get? 3 with
  | none => rw [ha3] at h; cases h
  | some uname =>
  rw [ha3] at h
  simp only [Option.some_bind] at h
  cases hscan1 : scanParticipant st.heap joined0 uname (args.get? 1) (args.get? 6) st.mods with
  | raise => rw [hscan1] at h; cases h
  | hit h1 mid j1 =>
    rw [hscan1] at h
    simp only [Option.some.injEq, Prod.mk.injEq] at h
    obtain ⟨hh, hn, hp, hj⟩ := h
    obtain ⟨hmem, hlow, hsome, hkeys⟩ := scanParticipant_hit hscan1
    subst hh hn hp
    exact Or.inl ⟨mid, rfl, rfl, Or.inl hmem, hlow, hsome, hkeys⟩
  | miss =>
  rw [hscan1] at h
  cases hscan2 : scanParticipant st.heap joined0 uname (args.get? 1) (args.get? 6) st.users with
  | raise => rw [hscan2] at h; cases h
  | hit h1 uid j1 =>
    rw [hscan2] at h
    simp only [Option.some.injEq, Prod.mk.injEq] at h
    obtain ⟨hh, hn, hp, hj⟩ := h
    obtain ⟨hmem, hlow, hsome, hkeys⟩ := scanParticipant_hit hscan2
    subst hh hn hp
    exact Or.inl ⟨uid, rfl, rfl, Or.inr hmem, hlow, hsome, hkeys⟩
  | miss =>
  rw [hscan2] at h
  by_cases hun : uname = "None"
  · rw [if_pos hun] at h
    by_cases hj2 : joined0 = 2
    · rw [if_pos hj2] at h
      cases ha4 : args.get? 4 with
      | none => rw [ha4] at h; cases h
      | some a4 =>
        rw [ha4] at h
        simp only [Option.bind_eq_bind, Option.some_bind, Option.some.injEq,
          Prod.mk.injEq] at h
        obtain ⟨hh, hn, hp, hj⟩ := h
        exact Or.inr (Or.inl ⟨hh.symm, hn.symm, a4, hp.symm⟩)
    · rw [if_neg hj2] at h
      simp only [Option.some.injEq, Prod.mk.injEq] at h
      obtain ⟨hh, hn, hp, hj⟩ := h
      exact Or.inr (Or.inl ⟨hh.symm, hn.symm, "anon", hp.symm⟩)
  · rw [if_neg hun] at h
    cases hc1 : (args.get? 1).bind pyInt? with
    | none => rw [hc1] at h; cases h
    | some cid =>
    rw [hc1] at h
    cases hc6 : (args.get? 6).bind pyFloat? with
    | none => rw [hc6] at h; cases h
    | some t =>
    rw [hc6] at h
    simp only [Option.some.injEq, Prod.mk.injEq] at h
    obtain ⟨hh, hn, hp, hj⟩ := h
    refine Or.inr (Or.inr ⟨{ name := uname, clients := [(cid, t)], mod_flags := 0 },
      hh.symm, hn.symm, hp.symm, ?_⟩)
    intro i hi u hu
    rcases hi with hi | hi
    · exact scanParticipant_miss hscan1 i hi u hu
    · exact scanParticipant_miss hscan2 i hi u hu

theorem inv_recv_participant (st : GroupState) (args : List String) (hInv : Inv st) :
    Inv ((recv_participant st args).getD st) := by
  obtain ⟨inv1, inv2, inv3⟩ := hInv
  cases hinit : init_participant st args with
  | none =>
    have hred : recv_participant st args = none := by
      unfold recv_participant
      rw [hinit]
      rfl
    rw [hred]
    exact ⟨inv1, inv2, inv3⟩
  | some r =>
  obtain ⟨heap2, nid2, part, joined⟩ := r
  rcases init_participant_cases hinit with
    ⟨mid, hpart, hnid, hmem, hlow, hsome, hkeys⟩ |
    ⟨hheap, hnid, sname, hpart⟩ |
    ⟨newU, hheap, hnid, hpart, hdist⟩
  · -- case A: an existing roster member was mutated in place
    subst hpart hnid
    have mainA : ∀ st2 : GroupState, st2.heap = heap2 → st2.nextId = st.nextId →
        st2.mods = st.mods → (∀ i ∈ st2.users, i ∈ st.users ∨ i = mid) → Inv st2 := by
      intro st2 hh hn hm hu
      have hmem2 : ∀ i ∈ rosterIds st2, i ∈ rosterIds st := by
        intro i hi
        rcases List.mem_append.mp hi with hiu | him2
        · rcases hu i hiu with hx | hx
          · exact List.mem_append.mpr (Or.inl hx)
          · subst hx
            rcases hmem with hmm | hmm
            · exact List.mem_append.mpr (Or.inr hmm)
            · exact List.mem_append.mpr (Or.inl hmm)
        · rw [hm] at him2
          exact List.mem_append.mpr (Or.inr him2)
      refine ⟨?_, ?_, ?_⟩
      · intro i hi
        rw [hh, hsome i]
        exact inv1 i (hmem2 i hi)
      · intro i hi j hj heq
        rw [hh, hlow i, hlow j] at heq
        exact inv2 i (hmem2 i hi) j (hmem2 j hj) heq
      · intro p hp
        rw [hh] at hp
        rw [hn]
        exact hkeys st.nextId inv3 p hp
    cases joined with
    | true =>
      have hstate : (recv_participant st args).getD st =
          { st with
            heap := heap2
            nextId := st.nextId
            users := usersAdd heap2 st.users mid
            events := st.events ++ [.on_member_join (.inr mid)] } := by
        unfold recv_participant
        rw [hinit]
        rfl
      rw [hstate]
      exact mainA _ rfl rfl rfl (fun i hi => mem_usersAdd hi)
    | false =>
      have hstate : (recv_participant st args).getD st =
          { st with
            heap := heap2
            nextId := st.nextId
            events := st.events ++ [.on_member_leave (.inr mid)] } := by
        unfold recv_participant
        rw [hinit]
        rfl
      rw [hstate]
      exact mainA _ rfl rfl rfl (fun i hi => Or.inl hi)
  · -- case B: the anonymous placeholder; no roster change
    subst hheap hnid hpart
    cases joined with
    | true =>
      have hstate : (recv_participant st args).getD st =
          { st with
            heap := st.heap
            nextId := st.nextId
            events := st.events ++ [.on_member_join (.inl sname)] } := by
        unfold recv_participant
        rw [hinit]
        rfl
      rw [hstate]
      exact ⟨inv1, inv2, inv3⟩
    | false =>
      have hstate : (recv_participant st args).getD st =
          { st with
            heap := st.heap
            nextId := st.nextId
            events := st.events ++ [.on_member_leave (.inl sname)] } := by
        unfold recv_participant
        rw [hinit]
        rfl
      rw [hstate]
      exact ⟨inv1, inv2, inv3⟩
  · -- case C: a fresh member was allocated under a fresh identifier
    subst hheap hnid hpart
    have hfresh : st.heap.lookup st.nextId = none :=
      lookup_eq_none_of_keys (fun p hp => Nat.ne_of_lt (inv3 p hp))
    have hnew : (st.heap ++ [(st.nextId, newU)]).lookup st.nextId = some newU := by
      rw [lookup_append_right hfresh]
      simp [List.lookup]
    have hpres : ∀ i, ((st.heap.lookup i)).isSome = true →
        (st.heap ++ [(st.nextId, newU)]).lookup i = st.heap.lookup i :=
      fun i hi => lookup_append_left hi
    have hlowold : ∀ i ∈ rosterIds st,
        lowerName (st.heap ++ [(st.nextId, newU)]) i = lowerName st.heap i := by
      intro i hi
      unfold lowerName
      rw [hpres i (inv1 i hi)]
    have hlownew : lowerName (st.heap ++ [(st.nextId, newU)]) st.nextId =
        some (pyLower newU.name) := by
      unfold lowerName
      rw [hnew]
      rfl
    have hroster_ne : ∀ i ∈ rosterIds st,
        lowerName st.heap i ≠ some (pyLower newU.name) := by
      intro i hi heq
      obtain ⟨u, hu⟩ : ∃ u, st.heap.lookup i = some u :=
        Option.isSome_iff_exists.mp (inv1 i hi)
      have hlu : lowerName st.heap i = some (pyLower u.name) := by
        unfold lowerName
        rw [hu]
        rfl
      rw [hlu] at heq
      injection heq with heq2
      have hsw : i ∈ st.mods ∨ i ∈ st.users := by
        rcases List.mem_append.mp hi with hx | hx
        · exact Or.inr hx
        · exact Or.inl hx
      exact hdist i hsw u hu heq2
    have mainC : ∀ st2 : GroupState, st2.heap = st.heap ++ [(st.nextId, newU)] →
        st2.nextId = st.nextId + 1 → st2.mods = st.mods →
        (∀ i ∈ st2.users, i ∈ st.users ∨ i = st.nextId) → Inv st2 := by
      intro st2 hh hn hm hu
      have hmem2 : ∀ i ∈ rosterIds st2, i ∈ rosterIds st ∨ i = st.nextId := by
        intro i hi
        rcases List.mem_append.mp hi with hiu | him2
        · rcases hu i hiu with hx | hx
          · exact Or.inl (List.mem_append.mpr (Or.inl hx))
          · exact Or.inr hx
        · rw [hm] at him2
          exact Or.inl (List.mem_append.mpr (Or.inr him2))
      refine ⟨?_, ?_, ?_⟩
      · intro i hi
        rw [hh]
        rcases hmem2 i hi with hold | hx
        · rw [hpres i (inv1 i hold)]
          exact inv1 i hold
        · subst hx
          rw [hnew]
          rfl
      · intro i hi j hj heq
        rw [hh] at heq
        rcases hmem2 i hi with hio | hio <;> rcases hmem2 j hj with hjo | hjo
        · rw [hlowold i hio, hlowold j hjo] at heq
          exact inv2 i hio j hjo heq
        · subst hjo
          rw [hlowold i hio, hlownew] at heq
          exact absurd heq (hroster_ne i hio)
        · subst hio
          rw [hlownew, hlowold j hjo] at heq
          exact absurd heq.symm (hroster_ne j hjo)
        · rw [hio, hjo]
      · intro p hp
        rw [hh] at hp
        rw [hn]
        rcases List.mem_append.mp hp with hpo | hpn
        · exact Nat.lt_succ_of_lt (inv3 p hpo)
        · simp only [List.mem_singleton] at hpn
          rw [hpn]
          exact Nat.lt_succ_self _
    cases joined with
    | true =>
      have hstate : (recv_participant st args).getD st =
          { st with
            heap := st.heap ++ [(st.nextId, newU)]
            nextId := st.nextId + 1
            users := usersAdd (st.heap ++ [(st.nextId, newU)]) st.users st.nextId
            events := st.events ++ [.on_member_join (.inr st.nextId)] } := by
        unfold recv_participant
        rw [hinit]
        rfl
      rw [hstate]
      exact mainC _ rfl rfl rfl (fun i hi => mem_usersAdd hi)
    | false =>
      have hstate : (recv_participant st args).getD st =
          { st with
            heap := st.heap ++ [(st.nextId, newU)]
            nextId := st.nextId + 1
            events := st.events ++ [.on_member_leave (.inr st.nextId)] } := by
        unfold recv_participant
        rw [hinit]
        rfl
      rw [hstate]
      exact mainC _ rfl rfl rfl (fun i hi => Or.inl hi)

theorem inv_processParticipants (evs : List (List String)) (st : GroupState)
    (h : Inv st) : Inv (processParticipants evs st) := by
  induction evs generalizing st with
  | nil => exact h
  | cons e rest ih =>
    exact ih ((recv_participant st e).getD st) (inv_recv_participant st e h)

/-- Claim C9: starting from any state satisfying the roster invariant —
every roster identifier allocated, no two distinct `User` objects with
case-insensitively equal names in the union of the member set and the
moderator set — a single incremental join/leave event, and any sequence
of them, preserves the invariant: the case-insensitive lookup
(moderators first, then members) always reuses the existing `User`, so
no duplicate member is ever created. -/
theorem claim_C9 : ∀ (st : GroupState) (args : List String) (evs : List (List String)),
    Inv st →
    Inv ((recv_participant st args).getD st) ∧ Inv (processParticipants evs st) :=
  fun st args evs h => ⟨inv_recv_participant st args h, inv_processParticipants evs st h⟩

/-- Witness for C9: the empty session state satisfies the invariant, and
the event sequence joining `bob` and then `BOB` preserves it. -/
theorem claim_C9_witness :
    Inv ((recv_participant {} ["1", "100", "", "bob", "", "", "5.0"]).getD {}) ∧
    Inv (processParticipants
      [["1", "100", "", "bob", "", "", "5.0"], ["1", "101", "", "BOB", "", "", "6.0"]] {}) :=
  claim_C9 {} ["1", "100", "", "bob", "", "", "5.0"]
    [["1", "100", "", "bob", "", "", "5.0"], ["1", "101", "", "BOB", "", "", "6.0"]]
    (by decide)

end Pytango
